import Mathlib

/-!
Verification of the encode/decode core of the session-cookie library
(src/lib/encrypt.js), as a shallow embedding.

Buffers are modelled as `List Nat` of byte values.  The platform crypto
primitives (Node `crypto`, `JSON`) are modelled by an abstract
`CryptoModel` record; everything written in the repository itself
(framing, hex/base64 wire format, validation, orchestration) is
translated function by function.

The frame text produced by `compileEncryptString` and consumed by
`extractComponents` is handled at the byte level: the delimiter byte 46
(".") never occurs inside a multi-byte UTF-8 sequence and hex digits are
ASCII, so splitting the decoded bytes at byte 46 agrees with the
JavaScript string-level `split(".")`, and per-component hex decoding
agrees with `Buffer.from(component, "hex")`.
-/

namespace SessionEnc

/-- The maximum byte length of an encoded cookie (ENC_MAX_LEN, encrypt.js:9). -/
def ENC_MAX_LEN : Nat := 4093

/-! ### Hex encoding (Buffer.toString("hex") / Buffer.from(text, "hex")) -/

/-- The byte code of the lowercase hex digit for a nibble, as produced by
Buffer.toString("hex"): 0-9 map to 48-57, 10-15 map to 97-102. -/
def hexCode (n : Nat) : Nat := if n < 10 then 48 + n else 87 + n

/-- Byte codes of the lowercase hex representation of a buffer,
modelling buf.toString("hex"). -/
def hexCodes : List Nat → List Nat
  | [] => []
  | b :: rest => hexCode (b / 16) :: hexCode (b % 16) :: hexCodes rest

/-- The nibble value of a hex digit byte code (0-9, a-f, A-F), as accepted
by Node hex decoding; `none` for any other byte. -/
def hexValByte (c : Nat) : Option Nat :=
  if 48 ≤ c ∧ c ≤ 57 then some (c - 48)
  else if 97 ≤ c ∧ c ≤ 102 then some (c - 87)
  else if 65 ≤ c ∧ c ≤ 70 then some (c - 55)
  else none

/-- Models `convertHexToBuffer` (encrypt.js:16), i.e. Buffer.from(text, "hex"):
Node consumes pairs of hex digits and stops silently at the first invalid
pair (or a dangling final digit), returning the bytes decoded so far.  It
never throws on malformed hex. -/
def convertHexToBuffer : List Nat → List Nat
  | c1 :: c2 :: rest =>
    match hexValByte c1, hexValByte c2 with
    | some h, some l => (16 * h + l) :: convertHexToBuffer rest
    | _, _ => []
  | _ => []

/-! ### Base64 (Buffer.toString("base64") / Buffer.from(text, "base64")) -/

/-- The base64 alphabet character for a sextet value. -/
def b64Char (n : Nat) : Char :=
  if n < 26 then Char.ofNat (65 + n)
  else if n < 52 then Char.ofNat (97 + (n - 26))
  else if n < 62 then Char.ofNat (48 + (n - 52))
  else if n = 62 then '+'
  else '/'

/-- The sextet value of a base64 alphabet character; `none` for padding
and any character outside the alphabet (Node base64 decoding skips such
characters rather than raising). -/
def b64Val (c : Char) : Option Nat :=
  if 'A' ≤ c ∧ c ≤ 'Z' then some (c.toNat - 65)
  else if 'a' ≤ c ∧ c ≤ 'z' then some (c.toNat - 71)
  else if '0' ≤ c ∧ c ≤ '9' then some (c.toNat + 4)
  else if c = '+' then some 62
  else if c = '/' then some 63
  else none

/-- Standard padded base64 encoding of a byte list, modelling
buf.toString("base64"). -/
def bytesToB64Chars : List Nat → List Char
  | [] => []
  | [b1] => [b64Char (b1 / 4), b64Char (b1 % 4 * 16), '=', '=']
  | [b1, b2] => [b64Char (b1 / 4), b64Char (b1 % 4 * 16 + b2 / 16), b64Char (b2 % 16 * 4), '=']
  | b1 :: b2 :: b3 :: rest =>
    b64Char (b1 / 4) :: b64Char (b1 % 4 * 16 + b2 / 16) ::
    b64Char (b2 % 16 * 4 + b3 / 64) :: b64Char (b3 % 64) :: bytesToB64Chars rest

/-- Regroup a stream of sextet values into bytes (4 sextets to 3 bytes,
with the usual 2-to-1 and 3-to-2 tail cases; a lone trailing sextet is
dropped, as Node does). -/
def sextetsToBytes : List Nat → List Nat
  | a :: b :: c :: d :: rest =>
    (a * 4 + b / 16) :: (b % 16 * 16 + c / 4) :: (c % 4 * 64 + d) :: sextetsToBytes rest
  | [a, b, c] => [a * 4 + b / 16, b % 16 * 16 + c / 4]
  | [a, b] => [a * 4 + b / 16]
  | _ => []

/-- Models Buffer.from(data, "base64"): lenient decoding that skips
characters outside the base64 alphabet (including padding) and never
raises. -/
def b64DecodeStr (s : String) : List Nat :=
  sextetsToBytes (s.data.filterMap b64Val)

/-- Models Buffer.byteLength(s): the UTF-8 byte length of a string. -/
def byteLength (s : String) : Nat := (s.data.map Char.utf8Size).sum

/-! ### Splitting the frame text at the "." delimiter (byte 46) -/

def splitByteAux : List Nat → List Nat → List (List Nat)
  | [], acc => [acc.reverse]
  | b :: rest, acc =>
    if b = 46 then acc.reverse :: splitByteAux rest []
    else splitByteAux rest (b :: acc)

/-- Models text.split("."): splits a byte list at every occurrence of
byte 46, keeping empty components (as the JavaScript split does). -/
def splitByte (bs : List Nat) : List (List Nat) := splitByteAux bs []

/-! ### Data model -/

/-- The error taxonomy of the module, one constructor per distinct
throw site / error family of encrypt.js. -/
inductive Err where
  /-- TypeError at encrypt.js:173 (payload is not an object). -/
  | invalidPayload
  /-- Error at encrypt.js:130 (missing algo / ivlen / secret). -/
  | invalidConfig
  /-- EvalError at encrypt.js:35 (no "." delimiter in the decoded frame). -/
  | malformedEval
  /-- RangeError at encrypt.js:40 (fewer than 3 components, or an empty
  component among the first three). -/
  | malformedRange
  /-- Error at encrypt.js:184 (encoded cookie exceeds ENC_MAX_LEN). -/
  | sizeLimit
  /-- An exception propagated from the platform cipher primitives. -/
  | cryptoFailure
  /-- EvalError at encrypt.js:111/116 (decrypted text does not parse, or
  parses to a falsy value). -/
  | corruptPayload
  /-- Error at encrypt.js:199 (empty input text to decryptData). -/
  | invalidInput
deriving DecidableEq

/-- The parsed frame returned by `extractComponents`
(the iv / auth / data triple of Buffers). -/
structure Frame where
  iv : List Nat
  auth : List Nat
  data : List Nat
deriving DecidableEq

/-- The options object taken by encryptData / decryptData.  Each field is
`none` when absent; a present field can still be JavaScript-falsy
(empty string, zero). -/
structure EncOpts where
  algo : Option String
  ivlen : Option Nat
  secret : Option String

/-- JavaScript truthiness of an optional string field. -/
def truthyStr : Option String → Bool
  | none => false
  | some s => s != ""

/-- JavaScript truthiness of an optional numeric field. -/
def truthyNat : Option Nat → Bool
  | none => false
  | some n => n != 0

/-- The JavaScript value passed to encryptData as the session payload:
either a primitive (invalid) or a genuine object of payload type `P`.
`data === Object(data)` holds exactly for the `obj` constructor. -/
inductive SessionData (P : Type) where
  | jsUndef
  | jsNull
  | jsBool (b : Bool)
  | jsNum (n : Int)
  | jsStr (s : String)
  | obj (p : P)

/-- Whether `data === Object(data)` holds (encrypt.js:172). -/
def isJsObject {P : Type} : SessionData P → Bool
  | .obj _ => true
  | _ => false

/-- Abstract model of the platform primitives used by encrypt.js: the
Node crypto cipher / decipher pair and JSON.  `P` is the type of
JSON-object payloads.  The cipher context is deterministic in
(algorithm, secret, iv, plaintext), which is faithful to Node for a
single update/final pass.  `getAuthTag` is `none` when the platform
throws (as it does for non-authenticated modes); `decrypt` is `.error`
when decipher update/final throws (bad data or tag mismatch). -/
structure CryptoModel (P : Type) where
  randomBytes : Nat → List Nat
  encrypt : String → String → List Nat → String → List Nat
  getAuthTag : String → String → List Nat → String → Option (List Nat)
  decrypt : String → String → List Nat → Option (List Nat) → List Nat → Except Unit String
  hasSetAuthTag : String → Bool
  stringify : P → String
  parse : String → Option P
  falsyP : P → Bool
  undefP : P → Bool

/-! ### JavaScript value semantics needed for getCipherAuthTag -/

/-- A JavaScript value that is either a number or a boolean, enough to
model the expression `indexOf(...) !== false`. -/
inductive JSVal where
  | vnum (n : Int)
  | vbool (b : Bool)

/-- JavaScript strict equality (===) on `JSVal`: values of different
types are never strictly equal. -/
def jsStrictEq : JSVal → JSVal → Bool
  | .vnum a, .vnum b => a == b
  | .vbool a, .vbool b => a == b
  | _, _ => false

/-- Whether `pat` is a prefix of `hay`. -/
def startsWithL : List Char → List Char → Bool
  | _, [] => true
  | [], _ :: _ => false
  | h :: t, p :: ps => h == p && startsWithL t ps

def strIndexOfAux (pat : List Char) : List Char → Nat → Int
  | [], i => if startsWithL [] pat then (i : Int) else -1
  | c :: t, i => if startsWithL (c :: t) pat then (i : Int) else strIndexOfAux pat t (i + 1)

/-- Models String.prototype.indexOf: the first index at which `pat`
occurs in `hay`, or -1 when it does not occur. -/
def strIndexOf (hay pat : List Char) : Int := strIndexOfAux pat hay 0

/-- ASCII lowercasing of one character (String.prototype.toLowerCase,
restricted to the ASCII range used by cipher algorithm names). -/
def lcChar (c : Char) : Char :=
  if 'A' ≤ c ∧ c ≤ 'Z' then Char.ofNat (c.toNat + 32) else c

def lowerChars (s : String) : List Char := s.data.map lcChar

/-- Whether `pat` occurs as a substring of `hay`. -/
def containsSub : List Char → List Char → Bool
  | [], pat => startsWithL [] pat
  | c :: t, pat => startsWithL (c :: t) pat || containsSub t pat

/-- The intended tag-producing-algorithm test: the lowercased algorithm
name contains one of the substrings gcm, ccm, ocb.  This is what the
documentation of getCipherAuthTag describes; it is stated here for
comparison with the condition the code actually evaluates. -/
def hasTagSubstring (method : String) : Bool :=
  containsSub (lowerChars method) ['g', 'c', 'm'] ||
  containsSub (lowerChars method) ['c', 'c', 'm'] ||
  containsSub (lowerChars method) ['o', 'c', 'b']

/-- The condition evaluated by `getCipherAuthTag` (encrypt.js:143-145):
`method.toLowerCase().indexOf("gcm") !== false || ... "ccm" ... || ... "ocb" ...`.
Note the comparisons are against the boolean `false`, not against -1. -/
def getCipherAuthTagCond (method : String) : Bool :=
  !(jsStrictEq (.vnum (strIndexOf (lowerChars method) ['g', 'c', 'm'])) (.vbool false)) ||
  !(jsStrictEq (.vnum (strIndexOf (lowerChars method) ['c', 'c', 'm'])) (.vbool false)) ||
  !(jsStrictEq (.vnum (strIndexOf (lowerChars method) ['o', 'c', 'b'])) (.vbool false))

/-! ### The translated source functions of encrypt.js -/

/-- Models `genIv` (encrypt.js:23): crypto.randomBytes(len). -/
def genIv {P : Type} (M : CryptoModel P) (len : Nat) : List Nat := M.randomBytes len

/-- Models `extractComponents` (encrypt.js:32-48): base64-decode the
input, require a "." delimiter (else EvalError), split at ".", require
at least 3 components with the first three non-empty (else RangeError),
and hex-decode the first three components into the frame. -/
def extractComponents (data : String) : Except Err Frame :=
  let text := b64DecodeStr data
  if 46 ∈ text then
    let components := splitByte text
    if components.length < 3 ∨ components.getD 0 [] = [] ∨
        components.getD 1 [] = [] ∨ components.getD 2 [] = [] then
      .error .malformedRange
    else
      .ok ⟨convertHexToBuffer (components.getD 0 []),
           convertHexToBuffer (components.getD 1 []),
           convertHexToBuffer (components.getD 2 [])⟩
  else .error .malformedEval

/-- Models `encryptSession` (encrypt.js:74-77):
cipher.update(JSON.stringify(data)) concatenated with cipher.final(). -/
def encryptSession {P : Type} (M : CryptoModel P) (algo secret : String)
    (iv : List Nat) (data : P) : List Nat :=
  M.encrypt algo secret iv (M.stringify data)

/-- Models `compileEncryptString` (encrypt.js:86-90):
base64(hex(iv) ++ "." ++ hex(auth) ++ "." ++ hex(text)). -/
def compileEncryptString (iv auth text : List Nat) : String :=
  String.mk (bytesToB64Chars (hexCodes iv ++ 46 :: hexCodes auth ++ 46 :: hexCodes text))

/-- Models `decodeToUtf8` (encrypt.js:98):
cipher.update(text, "binary", "utf8") + cipher.final("utf8"); an
exception from the decipher surfaces as `.error`. -/
def decodeToUtf8 {P : Type} (M : CryptoModel P) (algo secret : String)
    (iv : List Nat) (tagArg : Option (List Nat)) (text : List Nat) : Except Unit String :=
  M.decrypt algo secret iv tagArg text

/-- Models `decodeToJson` (encrypt.js:106-120): JSON.parse the decrypted
text (EvalError when it throws), then reject a falsy or undefined
result with the same EvalError. -/
def decodeToJson {P : Type} (M : CryptoModel P) (text : String) : Except Err P :=
  match M.parse text with
  | none => .error .corruptPayload
  | some json =>
    if M.falsyP json || M.undefP json then .error .corruptPayload
    else .ok json

/-- Models `assertOptsExist` (encrypt.js:128-134): throws unless opts is
present and algo, ivlen, secret are all truthy.  The Lean version
returns the validated opts in place of the boolean `true`. -/
def assertOptsExist (opts : Option EncOpts) : Except Err EncOpts :=
  match opts with
  | none => .error .invalidConfig
  | some o =>
    if truthyStr o.algo && truthyNat o.ivlen && truthyStr o.secret then .ok o
    else .error .invalidConfig

/-- Models `getCipherAuthTag` (encrypt.js:142-150): when the condition on
the method name holds, return cipher.getAuthTag() (which the platform may
refuse, modelled by `none`); otherwise return the empty buffer. -/
def getCipherAuthTag {P : Type} (M : CryptoModel P) (method secret : String)
    (iv : List Nat) (plain : String) : Option (List Nat) :=
  if getCipherAuthTagCond method then M.getAuthTag method secret iv plain
  else some []

/-- Models `encryptData` (encrypt.js:171-188): payload check, options
check, iv generation, encryption, auth-tag retrieval, framing, and the
ENC_MAX_LEN ceiling. -/
def encryptData {P : Type} (M : CryptoModel P) (data : SessionData P)
    (opts : Option EncOpts) : Except Err String :=
  match data with
  | .obj p =>
    match assertOptsExist opts with
    | .error e => .error e
    | .ok o =>
      let algo := o.algo.getD ""
      let secret := o.secret.getD ""
      let iv := genIv M (o.ivlen.getD 0)
      let encSession := encryptSession M algo secret iv p
      match getCipherAuthTag M algo secret iv (M.stringify p) with
      | none => .error .cryptoFailure
      | some tag =>
        let encText := compileEncryptString iv tag encSession
        if byteLength encText > ENC_MAX_LEN then .error .sizeLimit
        else .ok encText
  | _ => .error .invalidPayload

/-- Models `decryptData` (encrypt.js:197-213): empty-input check, options
check, frame extraction, tag installation for non-empty tags when the
decipher supports it, decryption, and JSON decoding.  The JavaScript
guard `!text || Buffer.byteLength(text) < 1` is equivalent to the text
being the empty string. -/
def decryptData {P : Type} (M : CryptoModel P) (text : String)
    (opts : Option EncOpts) : Except Err P :=
  if text = "" then .error .invalidInput
  else
    match assertOptsExist opts with
    | .error e => .error e
    | .ok o =>
      match extractComponents text with
      | .error e => .error e
      | .ok components =>
        let algo := o.algo.getD ""
        let secret := o.secret.getD ""
        let tagArg :=
          if 0 < components.auth.length ∧ M.hasSetAuthTag algo = true then
            some components.auth
          else none
        match decodeToUtf8 M algo secret components.iv tagArg components.data with
        | .error _ => .error .cryptoFailure
        | .ok plain => decodeToJson M plain

instance {ε α : Type} [DecidableEq ε] [DecidableEq α] : DecidableEq (Except ε α) :=
  fun a b =>
    match a, b with
    | .error e, .error f =>
      if h : e = f then .isTrue (congrArg Except.error h)
      else .isFalse fun c => h (Except.error.inj c)
    | .ok x, .ok y =>
      if h : x = y then .isTrue (congrArg Except.ok h)
      else .isFalse fun c => h (Except.ok.inj c)
    | .error _, .ok _ => .isFalse fun c => Except.noConfusion c
    | .ok _, .error _ => .isFalse fun c => Except.noConfusion c

/-! ### Concrete platform instances used to evaluate the pipeline -/

/-- A small concrete platform instance: payloads are natural numbers, the
payload 1 serializes to the two-character text of an empty JSON object,
the cipher is the identity on UTF-8 bytes, the auth tag is the one-byte
buffer [1], and random bytes are the constant byte 7. -/
def M0 : CryptoModel Nat where
  randomBytes n := List.replicate n 7
  encrypt _ _ _ plain := plain.data.map Char.toNat
  getAuthTag _ _ _ _ := some [1]
  decrypt _ _ _ _ ct := .ok (String.mk (ct.map Char.ofNat))
  hasSetAuthTag _ := true
  stringify _ := "\x7b\x7d"
  parse s := if s = "\x7b\x7d" then some 1 else none
  falsyP _ := false
  undefP _ := false

/-- A variant of `M0` whose cipher produces a 2045-byte ciphertext, so
that the encoded cookie exceeds ENC_MAX_LEN. -/
def M1 : CryptoModel Nat :=
  { M0 with encrypt := fun _ _ _ _ => List.replicate 2045 0 }

/-! ### Helper lemmas: hex -/

lemma hexValByte_hexCode {n : Nat} (h : n < 16) : hexValByte (hexCode n) = some n := by
  have hfin : ∀ i : Fin 16, hexValByte (hexCode i.val) = some i.val := by decide
  exact hfin ⟨n, h⟩

lemma hexCode_ne_dot (n : Nat) : hexCode n ≠ 46 := by
  unfold hexCode; split <;> omega

lemma hexCode_lt (n : Nat) (h : n < 16) : hexCode n < 256 := by
  unfold hexCode; split <;> omega

lemma hexCodes_ne_dot (bs : List Nat) : ∀ c ∈ hexCodes bs, c ≠ 46 := by
  induction bs with
  | nil => simp [hexCodes]
  | cons b rest ih =>
    intro c hc
    simp only [hexCodes, List.mem_cons] at hc
    rcases hc with rfl | rfl | hc
    · exact hexCode_ne_dot _
    · exact hexCode_ne_dot _
    · exact ih c hc

lemma hexCodes_lt (bs : List Nat) (h : ∀ b ∈ bs, b < 256) :
    ∀ c ∈ hexCodes bs, c < 256 := by
  induction bs with
  | nil => simp [hexCodes]
  | cons b rest ih =>
    intro c hc
    have hb : b < 256 := h b (by simp)
    simp only [hexCodes, List.mem_cons] at hc
    rcases hc with rfl | rfl | hc
    · exact hexCode_lt _ (by omega)
    · exact hexCode_lt _ (by omega)
    · exact ih (fun x hx => h x (by simp [hx])) c hc

lemma convertHex_hexCodes (bs : List Nat) (h : ∀ b ∈ bs, b < 256) :
    convertHexToBuffer (hexCodes bs) = bs := by
  induction bs with
  | nil => rfl
  | cons b rest ih =>
    have hb : b < 256 := h b (by simp)
    simp only [hexCodes, convertHexToBuffer,
      hexValByte_hexCode (show b / 16 < 16 by omega),
      hexValByte_hexCode (show b % 16 < 16 by omega)]
    rw [ih (fun x hx => h x (by simp [hx]))]
    congr 1
    omega

lemma hexCodes_length (bs : List Nat) : (hexCodes bs).length = 2 * bs.length := by
  induction bs with
  | nil => rfl
  | cons b rest ih => simp [hexCodes, ih]; omega

lemma hexCodes_ne_nil {bs : List Nat} (h : bs ≠ []) : hexCodes bs ≠ [] := by
  cases bs with
  | nil => exact absurd rfl h
  | cons b rest => simp [hexCodes]

/-! ### Helper lemmas: base64 -/

lemma b64Val_b64Char {n : Nat} (h : n < 64) : b64Val (b64Char n) = some n := by
  have hfin : ∀ i : Fin 64, b64Val (b64Char i.val) = some i.val := by decide
  exact hfin ⟨n, h⟩

lemma b64Val_pad : b64Val '=' = none := by decide

lemma b64_roundtrip :
    ∀ bs : List Nat, (∀ b ∈ bs, b < 256) →
      sextetsToBytes ((bytesToB64Chars bs).filterMap b64Val) = bs := by
  intro bs
  induction bs using bytesToB64Chars.induct with
  | case1 =>
    intro _
    rfl
  | case2 b1 =>
    intro h
    have hb1 : b1 < 256 := h b1 (by simp)
    simp only [bytesToB64Chars]
    rw [List.filterMap_cons_some (b64Val_b64Char (by omega)),
        List.filterMap_cons_some (b64Val_b64Char (by omega)),
        List.filterMap_cons_none b64Val_pad,
        List.filterMap_cons_none b64Val_pad,
        List.filterMap_nil]
    simp only [sextetsToBytes]
    congr 1
    omega
  | case3 b1 b2 =>
    intro h
    have hb1 : b1 < 256 := h b1 (by simp)
    have hb2 : b2 < 256 := h b2 (by simp)
    simp only [bytesToB64Chars]
    rw [List.filterMap_cons_some (b64Val_b64Char (by omega)),
        List.filterMap_cons_some (b64Val_b64Char (by omega)),
        List.filterMap_cons_some (b64Val_b64Char (by omega)),
        List.filterMap_cons_none b64Val_pad,
        List.filterMap_nil]
    simp only [sextetsToBytes]
    simp only [List.cons.injEq, and_true]
    constructor
    · omega
    · omega
  | case4 b1 b2 b3 rest ih =>
    intro h
    have hb1 : b1 < 256 := h b1 (by simp)
    have hb2 : b2 < 256 := h b2 (by simp)
    have hb3 : b3 < 256 := h b3 (by simp)
    have hrest : ∀ b ∈ rest, b < 256 := fun b hb => h b (by simp [hb])
    simp only [bytesToB64Chars]
    rw [List.filterMap_cons_some (b64Val_b64Char (by omega)),
        List.filterMap_cons_some (b64Val_b64Char (by omega)),
        List.filterMap_cons_some (b64Val_b64Char (by omega)),
        List.filterMap_cons_some (b64Val_b64Char (by omega))]
    simp only [sextetsToBytes]
    rw [ih hrest]
    simp only [List.cons.injEq]
    exact ⟨by omega, by omega, by omega, trivial⟩

lemma bytesToB64Chars_ne_nil {bs : List Nat} (h : bs ≠ []) :
    bytesToB64Chars bs ≠ [] := by
  match bs with
  | [] => exact absurd rfl h
  | [b1] => simp [bytesToB64Chars]
  | [b1, b2] => simp [bytesToB64Chars]
  | b1 :: b2 :: b3 :: rest => simp [bytesToB64Chars]

lemma bytesToB64Chars_length (bs : List Nat) :
    (bytesToB64Chars bs).length = (bs.length + 2) / 3 * 4 := by
  induction bs using bytesToB64Chars.induct with
  | case1 => rfl
  | case2 b1 =>
    simp only [bytesToB64Chars, List.length_cons, List.length_nil]
  | case3 b1 b2 =>
    simp only [bytesToB64Chars, List.length_cons, List.length_nil]
  | case4 b1 b2 b3 rest ih =>
    simp only [bytesToB64Chars, List.length_cons, ih]
    omega

lemma b64Char_utf8Size {n : Nat} (h : n < 64) : (b64Char n).utf8Size = 1 := by
  have hfin : ∀ i : Fin 64, (b64Char i.val).utf8Size = 1 := by decide
  exact hfin ⟨n, h⟩

lemma pad_utf8Size : ('=' : Char).utf8Size = 1 := by decide

lemma bytesToB64Chars_utf8Size (bs : List Nat) (h : ∀ b ∈ bs, b < 256) :
    ∀ c ∈ bytesToB64Chars bs, c.utf8Size = 1 := by
  induction bs using bytesToB64Chars.induct with
  | case1 => simp [bytesToB64Chars]
  | case2 b1 =>
    have hb1 : b1 < 256 := h b1 (by simp)
    intro c hc
    simp only [bytesToB64Chars, List.mem_cons, List.not_mem_nil, or_false] at hc
    rcases hc with rfl | rfl | rfl | rfl
    · exact b64Char_utf8Size (by omega)
    · exact b64Char_utf8Size (by omega)
    · exact pad_utf8Size
    · exact pad_utf8Size
  | case3 b1 b2 =>
    have hb1 : b1 < 256 := h b1 (by simp)
    have hb2 : b2 < 256 := h b2 (by simp)
    intro c hc
    simp only [bytesToB64Chars, List.mem_cons, List.not_mem_nil, or_false] at hc
    rcases hc with rfl | rfl | rfl | rfl
    · exact b64Char_utf8Size (by omega)
    · exact b64Char_utf8Size (by omega)
    · exact b64Char_utf8Size (by omega)
    · exact pad_utf8Size
  | case4 b1 b2 b3 rest ih =>
    have hb1 : b1 < 256 := h b1 (by simp)
    have hb2 : b2 < 256 := h b2 (by simp)
    have hb3 : b3 < 256 := h b3 (by simp)
    have hrest : ∀ b ∈ rest, b < 256 := fun b hb => h b (by simp [hb])
    intro c hc
    simp only [bytesToB64Chars, List.mem_cons] at hc
    rcases hc with rfl | rfl | rfl | rfl | hc
    · exact b64Char_utf8Size (by omega)
    · exact b64Char_utf8Size (by omega)
    · exact b64Char_utf8Size (by omega)
    · exact b64Char_utf8Size (by omega)
    · exact ih hrest c hc

/-! ### Helper lemmas: splitting -/

lemma splitAux_no_dot (xs : List Nat) :
    ∀ acc, (∀ b ∈ xs, b ≠ 46) → splitByteAux xs acc = [acc.reverse ++ xs] := by
  induction xs with
  | nil => intro acc _; simp [splitByteAux]
  | cons b t ih =>
    intro acc h
    have hb : b ≠ 46 := h b (by simp)
    simp only [splitByteAux, if_neg hb]
    rw [ih (b :: acc) (fun x hx => h x (by simp [hx]))]
    simp

lemma splitAux_dot (xs rest : List Nat) :
    ∀ acc, (∀ b ∈ xs, b ≠ 46) →
      splitByteAux (xs ++ (46 :: rest)) acc = (acc.reverse ++ xs) :: splitByteAux rest [] := by
  induction xs with
  | nil =>
    intro acc _
    simp [splitByteAux]
  | cons b t ih =>
    intro acc h
    have hb : b ≠ 46 := h b (by simp)
    simp only [List.cons_append, splitByteAux, if_neg hb, List.append_eq]
    rw [ih (b :: acc) (fun x hx => h x (by simp [hx]))]
    simp

lemma splitByte_three (a b c : List Nat)
    (ha : ∀ x ∈ a, x ≠ 46) (hb : ∀ x ∈ b, x ≠ 46) (hc : ∀ x ∈ c, x ≠ 46) :
    splitByte (a ++ (46 :: (b ++ (46 :: c)))) = [a, b, c] := by
  unfold splitByte
  rw [splitAux_dot a (b ++ (46 :: c)) [] ha]
  rw [splitAux_dot b c [] hb]
  rw [splitAux_no_dot c [] hc]
  simp

/-! ### Helper lemmas: the wire-format pipeline -/

lemma data_mk (cs : List Char) : (String.mk cs).data = cs := rfl

lemma sum_map_size_one {l : List Char} (h : ∀ c ∈ l, c.utf8Size = 1) :
    (l.map Char.utf8Size).sum = l.length := by
  induction l with
  | nil => rfl
  | cons c t ih =>
    simp only [List.map_cons, List.sum_cons, List.length_cons,
      h c (by simp), ih (fun x hx => h x (by simp [hx]))]
    omega

/-- The branch condition inside getCipherAuthTag is true for every
algorithm name: `indexOf` returns a number, and a number is never
strictly equal to the boolean `false`. -/
lemma getCipherAuthTagCond_true (m : String) : getCipherAuthTagCond m = true := rfl

/-- The byte list underlying the joined frame text used by
compileEncryptString. -/
def frameBytes (iv auth text : List Nat) : List Nat :=
  (hexCodes iv ++ (46 :: hexCodes auth)) ++ (46 :: hexCodes text)

lemma compile_data (iv auth text : List Nat) :
    (compileEncryptString iv auth text).data = bytesToB64Chars (frameBytes iv auth text) := rfl

lemma frameBytes_lt (iv auth text : List Nat)
    (hi : ∀ b ∈ iv, b < 256) (ha : ∀ b ∈ auth, b < 256) (ht : ∀ b ∈ text, b < 256) :
    ∀ b ∈ frameBytes iv auth text, b < 256 := by
  intro b hb
  simp only [frameBytes, List.mem_append, List.mem_cons] at hb
  rcases hb with (hb | rfl | hb) | rfl | hb
  · exact hexCodes_lt iv hi b hb
  · omega
  · exact hexCodes_lt auth ha b hb
  · omega
  · exact hexCodes_lt text ht b hb

lemma frameBytes_mem_dot (iv auth text : List Nat) : 46 ∈ frameBytes iv auth text := by
  simp [frameBytes]

lemma frameBytes_assoc (iv auth text : List Nat) :
    frameBytes iv auth text =
      hexCodes iv ++ (46 :: (hexCodes auth ++ (46 :: hexCodes text))) := by
  simp [frameBytes, List.append_assoc]

lemma splitByte_frameBytes (iv auth text : List Nat) :
    splitByte (frameBytes iv auth text) = [hexCodes iv, hexCodes auth, hexCodes text] := by
  rw [frameBytes_assoc]
  exact splitByte_three _ _ _ (hexCodes_ne_dot iv) (hexCodes_ne_dot auth) (hexCodes_ne_dot text)

lemma byteLength_compile (iv auth text : List Nat)
    (hi : ∀ b ∈ iv, b < 256) (ha : ∀ b ∈ auth, b < 256) (ht : ∀ b ∈ text, b < 256) :
    byteLength (compileEncryptString iv auth text) =
      (2 * iv.length + 2 * auth.length + 2 * text.length + 4) / 3 * 4 := by
  unfold byteLength
  rw [compile_data,
    sum_map_size_one (bytesToB64Chars_utf8Size _ (frameBytes_lt iv auth text hi ha ht)),
    bytesToB64Chars_length]
  have hlen : (frameBytes iv auth text).length =
      2 * iv.length + 2 * auth.length + 2 * text.length + 2 := by
    simp only [frameBytes, List.length_append, List.length_cons, hexCodes_length]
    omega
  rw [hlen]

lemma compile_ne_empty (iv auth text : List Nat) : compileEncryptString iv auth text ≠ "" := by
  intro hcontra
  have hdata : bytesToB64Chars (frameBytes iv auth text) = [] := by
    rw [← compile_data, hcontra]
  exact bytesToB64Chars_ne_nil
    (List.ne_nil_of_mem (frameBytes_mem_dot iv auth text)) hdata

lemma b64DecodeStr_compile (iv auth text : List Nat)
    (hi : ∀ b ∈ iv, b < 256) (ha : ∀ b ∈ auth, b < 256) (ht : ∀ b ∈ text, b < 256) :
    b64DecodeStr (compileEncryptString iv auth text) = frameBytes iv auth text := by
  unfold b64DecodeStr
  rw [compile_data]
  exact b64_roundtrip _ (frameBytes_lt iv auth text hi ha ht)

/-- The frame round-trip: extractComponents recovers exactly the three
buffers that compileEncryptString framed, whenever all three are
non-empty (and are genuine byte buffers). -/
lemma extract_compile (iv auth text : List Nat)
    (hiv : iv ≠ []) (hauth : auth ≠ []) (htext : text ≠ [])
    (hi : ∀ b ∈ iv, b < 256) (ha : ∀ b ∈ auth, b < 256) (ht : ∀ b ∈ text, b < 256) :
    extractComponents (compileEncryptString iv auth text) = .ok ⟨iv, auth, text⟩ := by
  unfold extractComponents
  rw [b64DecodeStr_compile iv auth text hi ha ht]
  rw [if_pos (frameBytes_mem_dot iv auth text)]
  rw [splitByte_frameBytes]
  rw [if_neg ?hneg]
  case hneg =>
    simp only [List.length_cons, List.length_nil, List.getD, List.get?]
    push_neg
    refine ⟨by omega, hexCodes_ne_nil hiv, hexCodes_ne_nil hauth, hexCodes_ne_nil htext⟩
  simp only [List.getD, List.get?, Option.getD_some]
  rw [convertHex_hexCodes iv hi, convertHex_hexCodes auth ha, convertHex_hexCodes text ht]

lemma assertOpts_valid (a sec : String) (n : Nat) (ha : a ≠ "") (hn : n ≠ 0) (hsec : sec ≠ "") :
    assertOptsExist (some ⟨some a, some n, some sec⟩) = .ok ⟨some a, some n, some sec⟩ := by
  simp [assertOptsExist, truthyStr, truthyNat, ha, hn, hsec]

lemma assertOpts_invalid (opts : Option EncOpts)
    (h : opts = none ∨ ∃ o, opts = some o ∧
        (truthyStr o.algo = false ∨ truthyNat o.ivlen = false ∨ truthyStr o.secret = false)) :
    assertOptsExist opts = .error .invalidConfig := by
  rcases h with rfl | ⟨o, rfl, h⟩
  · rfl
  · unfold assertOptsExist
    rcases h with h | h | h <;> simp [h]

/-- Shape of encryptData at a valid (object) payload and fully truthy
options, once the auth tag has been retrieved: everything up to the size
check is deterministic in the model. -/
lemma encryptData_shape (P : Type) (M : CryptoModel P) (p : P) (a sec : String) (n : Nat)
    (tag : List Nat) (ha : a ≠ "") (hn : n ≠ 0) (hsec : sec ≠ "")
    (htag : M.getAuthTag a sec (M.randomBytes n) (M.stringify p) = some tag) :
    encryptData M (.obj p) (some ⟨some a, some n, some sec⟩) =
      (if byteLength (compileEncryptString (M.randomBytes n) tag
            (M.encrypt a sec (M.randomBytes n) (M.stringify p))) > ENC_MAX_LEN
       then .error .sizeLimit
       else .ok (compileEncryptString (M.randomBytes n) tag
            (M.encrypt a sec (M.randomBytes n) (M.stringify p)))) := by
  unfold encryptData
  rw [assertOpts_valid a sec n ha hn hsec]
  simp only [genIv, encryptSession, getCipherAuthTag, getCipherAuthTagCond_true,
    if_true, Option.getD_some]
  rw [htag]

/-- A successful encryptData output is exactly the compiled frame, and
the size check passed. -/
lemma encryptData_ok_eq (P : Type) (M : CryptoModel P) (p : P) (a sec : String) (n : Nat)
    (tag : List Nat) (s : String) (ha : a ≠ "") (hn : n ≠ 0) (hsec : sec ≠ "")
    (htag : M.getAuthTag a sec (M.randomBytes n) (M.stringify p) = some tag)
    (henc : encryptData M (.obj p) (some ⟨some a, some n, some sec⟩) = .ok s) :
    s = compileEncryptString (M.randomBytes n) tag
          (M.encrypt a sec (M.randomBytes n) (M.stringify p)) := by
  rw [encryptData_shape P M p a sec n tag ha hn hsec htag] at henc
  by_cases hc : byteLength (compileEncryptString (M.randomBytes n) tag
      (M.encrypt a sec (M.randomBytes n) (M.stringify p))) > ENC_MAX_LEN
  · rw [if_pos hc] at henc
    exact absurd henc (by simp)
  · rw [if_neg hc] at henc
    exact (Except.ok.inj henc).symm

/-! ### The claims -/

/-- C2: the claim (and the doc comment of getCipherAuthTag) says the auth
tag is retrieved if and only if the algorithm name contains gcm, ccm or
ocb, with a zero-length buffer otherwise.  The code compares
`indexOf(...)` against the boolean `false`, which is always unequal, so
the getAuthTag branch is taken for every algorithm name; the zero-length
branch is unreachable.  In particular it is taken for aes-256-cbc, whose
name contains none of the three substrings. -/
theorem c2_authtag_branch_always_taken :
    (∀ (P : Type) (M : CryptoModel P) (method secret : String)
        (iv : List Nat) (plain : String),
      getCipherAuthTag M method secret iv plain = M.getAuthTag method secret iv plain) ∧
    getCipherAuthTagCond "aes-256-cbc" = true ∧
    hasTagSubstring "aes-256-cbc" = false := by
  refine ⟨?_, rfl, by decide⟩
  intro P M method secret iv plain
  simp [getCipherAuthTag, getCipherAuthTagCond_true]

/-- C3 counterexample: a frame with non-empty iv and ciphertext but a
zero-length authTag component is rejected by extractComponents with the
RangeError, refuting the claim that such frames are accepted. -/
theorem c3_cex :
    extractComponents (compileEncryptString [170] [] [187]) = .error .malformedRange := by
  decide

/-- C3 (amended): on decode the frame parser requires all three of the
first components to be non-empty, including the authTag; every frame
whose authTag component is empty is rejected with the component-count
RangeError even when iv and ciphertext are non-empty. -/
theorem c3_empty_authtag_rejected (iv text : List Nat)
    (hi : ∀ b ∈ iv, b < 256) (ht : ∀ b ∈ text, b < 256) :
    extractComponents (compileEncryptString iv [] text) = .error .malformedRange := by
  unfold extractComponents
  rw [b64DecodeStr_compile iv [] text hi (by simp) ht]
  rw [if_pos (frameBytes_mem_dot iv [] text)]
  rw [splitByte_frameBytes]
  have hcond : ([hexCodes iv, hexCodes [], hexCodes text].length < 3 ∨
      [hexCodes iv, hexCodes [], hexCodes text].getD 0 [] = [] ∨
      [hexCodes iv, hexCodes [], hexCodes text].getD 1 [] = [] ∨
      [hexCodes iv, hexCodes [], hexCodes text].getD 2 [] = []) :=
    Or.inr (Or.inr (Or.inl rfl))
  rw [if_pos hcond]

theorem c3_empty_authtag_rejected_witness :
    extractComponents (compileEncryptString [1, 2] [] [3]) = .error .malformedRange :=
  c3_empty_authtag_rejected [1, 2] [3] (by decide) (by decide)

/-- C4: a decode input whose base64-decoded bytes lack the "." delimiter
fails with the EvalError; one that splits into fewer than 3 components
or has an empty component among the first three fails with the
RangeError; in particular the base64 encoding of "abc" fails, both in
extractComponents and through the whole decryptData pipeline. -/
theorem c4_malformed_frame :
    (∀ s : String, 46 ∉ b64DecodeStr s → extractComponents s = .error .malformedEval) ∧
    (∀ s : String, 46 ∈ b64DecodeStr s →
      ((splitByte (b64DecodeStr s)).length < 3 ∨
        (splitByte (b64DecodeStr s)).getD 0 [] = [] ∨
        (splitByte (b64DecodeStr s)).getD 1 [] = [] ∨
        (splitByte (b64DecodeStr s)).getD 2 [] = []) →
      extractComponents s = .error .malformedRange) ∧
    (∀ (P : Type) (M : CryptoModel P) (a sec : String) (n : Nat),
      a ≠ "" → n ≠ 0 → sec ≠ "" →
      decryptData M "YWJj" (some ⟨some a, some n, some sec⟩) = .error .malformedEval) := by
  refine ⟨?_, ?_, ?_⟩
  · intro s h
    unfold extractComponents
    rw [if_neg h]
  · intro s hdot hcond
    unfold extractComponents
    rw [if_pos hdot, if_pos hcond]
  · intro P M a sec n ha hn hsec
    unfold decryptData
    rw [if_neg (by decide : ¬ ("YWJj" : String) = "")]
    rw [assertOpts_valid a sec n ha hn hsec]
    rw [show extractComponents "YWJj" = Except.error Err.malformedEval from by decide]

theorem c4_malformed_frame_witness :
    extractComponents "YWJj" = .error .malformedEval ∧
    extractComponents (String.mk (bytesToB64Chars [97, 46, 98])) = .error .malformedRange ∧
    decryptData M0 "YWJj" (some ⟨some "aes-256-gcm", some 2, some "key"⟩) =
      .error .malformedEval :=
  ⟨c4_malformed_frame.1 "YWJj" (by decide),
   c4_malformed_frame.2.1 (String.mk (bytesToB64Chars [97, 46, 98])) (by decide) (by decide),
   c4_malformed_frame.2.2 Nat M0 "aes-256-gcm" "key" 2 (by decide) (by decide) (by decide)⟩

/-- C5 counterexample: the frame text "zz.aa.bb" contains malformed hex
in its first component, yet extractComponents succeeds, silently
producing a truncated (empty) iv buffer — refuting the claim that
malformed hex raises a structural-parse failure. -/
theorem c5_cex :
    hexValByte 122 = none ∧
    extractComponents (String.mk (bytesToB64Chars [122, 122, 46, 97, 97, 46, 98, 98])) =
      .ok ⟨[], [170], [187]⟩ := by
  decide

/-- C5 (amended): missing delimiter and bad component count raise the
two distinct structural failures, but hex validity is never checked:
whenever the delimiter and component checks pass, extractComponents
succeeds, hex-decoding each component with silent truncation at the
first invalid character (and malformed base64 is likewise decoded
leniently, never raising). -/
theorem c5_structural_only (s : String)
    (hdot : 46 ∈ b64DecodeStr s)
    (hlen : ¬ (splitByte (b64DecodeStr s)).length < 3)
    (h0 : (splitByte (b64DecodeStr s)).getD 0 [] ≠ [])
    (h1 : (splitByte (b64DecodeStr s)).getD 1 [] ≠ [])
    (h2 : (splitByte (b64DecodeStr s)).getD 2 [] ≠ []) :
    extractComponents s = .ok
      ⟨convertHexToBuffer ((splitByte (b64DecodeStr s)).getD 0 []),
       convertHexToBuffer ((splitByte (b64DecodeStr s)).getD 1 []),
       convertHexToBuffer ((splitByte (b64DecodeStr s)).getD 2 [])⟩ := by
  unfold extractComponents
  rw [if_pos hdot, if_neg (not_or.mpr ⟨hlen, not_or.mpr ⟨h0, not_or.mpr ⟨h1, h2⟩⟩⟩)]

theorem c5_structural_only_witness :
    extractComponents (String.mk (bytesToB64Chars [103, 103, 46, 49, 49, 46, 50, 50])) =
      .ok ⟨convertHexToBuffer ((splitByte (b64DecodeStr
              (String.mk (bytesToB64Chars [103, 103, 46, 49, 49, 46, 50, 50])))).getD 0 []),
           convertHexToBuffer ((splitByte (b64DecodeStr
              (String.mk (bytesToB64Chars [103, 103, 46, 49, 49, 46, 50, 50])))).getD 1 []),
           convertHexToBuffer ((splitByte (b64DecodeStr
              (String.mk (bytesToB64Chars [103, 103, 46, 49, 49, 46, 50, 50])))).getD 2 [])⟩ :=
  c5_structural_only (String.mk (bytesToB64Chars [103, 103, 46, 49, 49, 46, 50, 50]))
    (by decide) (by decide) (by decide) (by decide) (by decide)

/-- C7 counterexample: with a null payload and an absent config, encode
fails with the payload error, not the config error — the payload check
runs first, refuting the claim that a missing config yields InvalidConfig
regardless of payload validity. -/
theorem c7_cex :
    encryptData M0 SessionData.jsNull none = .error .invalidPayload ∧
    Err.invalidPayload ≠ Err.invalidConfig := by
  decide

/-- C7 (amended): when the payload passes the object check and any of
algo, ivlen, secret is missing or falsy (or the config itself is
absent), encode fails with InvalidConfig; likewise decode for any
non-empty input text.  An invalid payload or empty text is reported
first and masks the config error. -/
theorem c7_config_missing (P : Type) (M : CryptoModel P) (p : P) (text : String)
    (opts : Option EncOpts)
    (h : opts = none ∨ ∃ o, opts = some o ∧
        (truthyStr o.algo = false ∨ truthyNat o.ivlen = false ∨ truthyStr o.secret = false)) :
    encryptData M (.obj p) opts = .error .invalidConfig ∧
    (text ≠ "" → decryptData M text opts = .error .invalidConfig) := by
  have hassert := assertOpts_invalid opts h
  constructor
  · unfold encryptData
    rw [hassert]
  · intro htext
    unfold decryptData
    rw [if_neg htext, hassert]

theorem c7_config_missing_witness :
    encryptData M0 (.obj 1) (some ⟨none, some 16, some "key"⟩) = .error .invalidConfig ∧
    decryptData M0 "YWJj" (some ⟨none, some 16, some "key"⟩) = .error .invalidConfig := by
  have h := c7_config_missing Nat M0 1 "YWJj" (some ⟨none, some 16, some "key"⟩)
    (Or.inr ⟨⟨none, some 16, some "key"⟩, rfl, Or.inl (by decide)⟩)
  exact ⟨h.1, h.2 (by decide)⟩

/-- C8: for every crypto platform and every config, encode rejects a
null payload and a string payload with the payload TypeError, and decode
rejects the empty input text with the invalid-input error; these checks
are independent of the crypto model, i.e. they fire before any
cryptographic work. -/
theorem c8_early_checks :
    (∀ (P : Type) (M : CryptoModel P) (opts : Option EncOpts),
      encryptData M .jsNull opts = .error .invalidPayload) ∧
    (∀ (P : Type) (M : CryptoModel P) (opts : Option EncOpts) (s : String),
      encryptData M (.jsStr s) opts = .error .invalidPayload) ∧
    (∀ (P : Type) (M : CryptoModel P) (opts : Option EncOpts),
      decryptData M "" opts = .error .invalidInput) := by
  refine ⟨fun P M opts => rfl, fun P M opts s => rfl, fun P M opts => ?_⟩
  unfold decryptData
  rw [if_pos rfl]

/-- C9: decodeToJson fails (with the corrupt-payload error) exactly when
parsing fails or parsing succeeds with a falsy or undefined result; a
successfully parsed but falsy/undefined result is never returned to the
caller. -/
theorem c9_corrupt_payload (P : Type) (M : CryptoModel P) (text : String) :
    (decodeToJson M text = .error .corruptPayload ↔
      (M.parse text = none ∨
        ∃ j, M.parse text = some j ∧ (M.falsyP j || M.undefP j) = true)) ∧
    (∀ j, decodeToJson M text = .ok j →
      M.parse text = some j ∧ M.falsyP j = false ∧ M.undefP j = false) := by
  cases hp : M.parse text with
  | none =>
    have hred : decodeToJson M text = Except.error Err.corruptPayload := by
      unfold decodeToJson
      rw [hp]
    constructor
    · exact ⟨fun _ => Or.inl rfl, fun _ => hred⟩
    · intro j hj
      rw [hred] at hj
      exact absurd hj (by simp)
  | some j =>
    have hred : decodeToJson M text =
        (if (M.falsyP j || M.undefP j) = true then Except.error Err.corruptPayload
         else Except.ok j) := by
      unfold decodeToJson
      rw [hp]
    by_cases hf : (M.falsyP j || M.undefP j) = true
    · rw [if_pos hf] at hred
      constructor
      · exact ⟨fun _ => Or.inr ⟨j, rfl, hf⟩, fun _ => hred⟩
      · intro j' hj'
        rw [hred] at hj'
        exact absurd hj' (by simp)
    · rw [if_neg hf] at hred
      have hf2 : M.falsyP j = false ∧ M.undefP j = false := by
        have hf3 : (M.falsyP j || M.undefP j) = false := by
          cases hb : (M.falsyP j || M.undefP j) with
          | false => rfl
          | true => exact absurd hb hf
        exact Bool.or_eq_false_iff.mp hf3
      constructor
      · constructor
        · intro he
          rw [hred] at he
          exact absurd he (by simp)
        · intro hor
          rcases hor with hnone | ⟨j2, hj2, hfj2⟩
          · exact absurd hnone (by simp)
          · have hjj : j = j2 := Option.some.inj hj2
            subst hjj
            exact absurd hfj2 hf
      · intro j' hj'
        rw [hred] at hj'
        have hjj : j = j' := Except.ok.inj hj'
        subst hjj
        exact ⟨rfl, hf2.1, hf2.2⟩

theorem c9_corrupt_payload_witness :
    decodeToJson M0 "x" = .error .corruptPayload :=
  (c9_corrupt_payload Nat M0 "x").1.mpr (Or.inl (by decide))

/-- decryptData at a non-empty input, valid options and a successfully
extracted frame reduces to the decrypt-then-parse continuation. -/
lemma decryptData_ok_frame (P : Type) (M : CryptoModel P) (text : String)
    (a sec : String) (n : Nat) (iv auth ct : List Nat)
    (ha : a ≠ "") (hn : n ≠ 0) (hsec : sec ≠ "")
    (hnempty : text ≠ "")
    (hextract : extractComponents text = .ok ⟨iv, auth, ct⟩) :
    decryptData M text (some ⟨some a, some n, some sec⟩) =
      (match decodeToUtf8 M a sec iv
          (if 0 < auth.length ∧ M.hasSetAuthTag a = true then some auth else none) ct with
       | .error _ => .error .cryptoFailure
       | .ok plain => decodeToJson M plain) := by
  unfold decryptData
  rw [if_neg hnempty, assertOpts_valid a sec n ha hn hsec, hextract]
  rfl

/-- C1: the decode-of-encode round trip.  The hypotheses are the
platform facts the code relies on: randomBytes returns ivlen bytes, the
cipher is deterministic and invertible for matching parameters, a
retrieved auth tag is a non-empty byte buffer, the decipher exposes
setAuthTag, and JSON.parse inverts JSON.stringify on the (non-falsy,
object) payload.  Under these, every encode the code accepts decodes
back to the original payload with the same config. -/
theorem c1_roundtrip (P : Type) (M : CryptoModel P) (p : P) (a sec : String) (n : Nat)
    (tag : List Nat) (s : String)
    (ha : a ≠ "") (hn : n ≠ 0) (hsec : sec ≠ "")
    (hivlen : (M.randomBytes n).length = n)
    (hivlt : ∀ b ∈ M.randomBytes n, b < 256)
    (hctne : M.encrypt a sec (M.randomBytes n) (M.stringify p) ≠ [])
    (hctlt : ∀ b ∈ M.encrypt a sec (M.randomBytes n) (M.stringify p), b < 256)
    (htag : M.getAuthTag a sec (M.randomBytes n) (M.stringify p) = some tag)
    (htagne : tag ≠ [])
    (htaglt : ∀ b ∈ tag, b < 256)
    (hset : M.hasSetAuthTag a = true)
    (hdec : M.decrypt a sec (M.randomBytes n) (some tag)
        (M.encrypt a sec (M.randomBytes n) (M.stringify p)) = .ok (M.stringify p))
    (hparse : M.parse (M.stringify p) = some p)
    (hfal : M.falsyP p = false) (hund : M.undefP p = false)
    (henc : encryptData M (.obj p) (some ⟨some a, some n, some sec⟩) = .ok s) :
    decryptData M s (some ⟨some a, some n, some sec⟩) = .ok p := by
  have hs := encryptData_ok_eq P M p a sec n tag s ha hn hsec htag henc
  subst hs
  have hivne : M.randomBytes n ≠ [] := by
    intro hnil
    rw [hnil] at hivlen
    exact hn hivlen.symm
  rw [decryptData_ok_frame P M _ a sec n (M.randomBytes n) tag
    (M.encrypt a sec (M.randomBytes n) (M.stringify p)) ha hn hsec
    (compile_ne_empty _ _ _)
    (extract_compile _ _ _ hivne htagne hctne hivlt htaglt hctlt)]
  rw [if_pos ⟨List.length_pos.mpr htagne, hset⟩]
  unfold decodeToUtf8
  rw [hdec]
  show decodeToJson M (M.stringify p) = Except.ok p
  unfold decodeToJson
  simp [hparse, hfal, hund]

theorem c1_roundtrip_witness :
    decryptData M0
      (compileEncryptString (M0.randomBytes 2) [1]
        (M0.encrypt "aes-256-gcm" "key" (M0.randomBytes 2) (M0.stringify 1)))
      (some ⟨some "aes-256-gcm", some 2, some "key"⟩) = .ok 1 :=
  c1_roundtrip Nat M0 1 "aes-256-gcm" "key" 2 [1]
    (compileEncryptString (M0.randomBytes 2) [1]
      (M0.encrypt "aes-256-gcm" "key" (M0.randomBytes 2) (M0.stringify 1)))
    (by decide) (by decide) (by decide) (by decide) (by decide) (by decide) (by decide)
    rfl (by decide) (by decide) rfl (by decide) (by decide) (by decide) (by decide)
    (by decide)

/-- C6: once encode reaches the size check (valid object payload, valid
config, tag retrieved), it fails with the size-limit error exactly when
the encoded cookie exceeds ENC_MAX_LEN = 4093 bytes, and otherwise
returns the encoded cookie. -/
theorem c6_size_limit (P : Type) (M : CryptoModel P) (p : P) (a sec : String) (n : Nat)
    (tag : List Nat)
    (ha : a ≠ "") (hn : n ≠ 0) (hsec : sec ≠ "")
    (htag : M.getAuthTag a sec (M.randomBytes n) (M.stringify p) = some tag) :
    (byteLength (compileEncryptString (M.randomBytes n) tag
        (M.encrypt a sec (M.randomBytes n) (M.stringify p))) > ENC_MAX_LEN →
      encryptData M (.obj p) (some ⟨some a, some n, some sec⟩) = .error .sizeLimit) ∧
    (byteLength (compileEncryptString (M.randomBytes n) tag
        (M.encrypt a sec (M.randomBytes n) (M.stringify p))) ≤ ENC_MAX_LEN →
      encryptData M (.obj p) (some ⟨some a, some n, some sec⟩) =
        .ok (compileEncryptString (M.randomBytes n) tag
          (M.encrypt a sec (M.randomBytes n) (M.stringify p)))) := by
  have hshape := encryptData_shape P M p a sec n tag ha hn hsec htag
  constructor
  · intro hgt
    rw [hshape, if_pos hgt]
  · intro hle
    rw [hshape, if_neg (by omega)]

theorem c6_size_limit_witness :
    encryptData M1 (.obj 1) (some ⟨some "aes-256-gcm", some 1, some "key"⟩) =
      .error .sizeLimit ∧
    encryptData M0 (.obj 1) (some ⟨some "aes-256-gcm", some 2, some "key"⟩) =
      .ok (compileEncryptString (M0.randomBytes 2) [1]
        (M0.encrypt "aes-256-gcm" "key" (M0.randomBytes 2) (M0.stringify 1))) := by
  constructor
  · apply (c6_size_limit Nat M1 1 "aes-256-gcm" "key" 1 [1]
      (by decide) (by decide) (by decide) rfl).1
    have hct : M1.encrypt "aes-256-gcm" "key" (M1.randomBytes 1) (M1.stringify 1) =
        List.replicate 2045 0 := rfl
    have hb3 : ∀ b ∈ M1.encrypt "aes-256-gcm" "key" (M1.randomBytes 1) (M1.stringify 1),
        b < 256 := by
      intro b hb
      rw [hct] at hb
      have hb0 := List.eq_of_mem_replicate hb
      subst hb0
      decide
    rw [byteLength_compile _ _ _ (by decide) (by decide) hb3, hct, List.length_replicate,
      show (M1.randomBytes 1).length = 1 from rfl]
    decide
  · exact (c6_size_limit Nat M0 1 "aes-256-gcm" "key" 2 [1]
      (by decide) (by decide) (by decide) rfl).2 (by decide)

/-- C10: every successful encode output base64-decodes to a frame text
with exactly two dot delimiters, hence exactly three dot-separated
components, with the first (iv, non-empty since ivlen is truthy and
randomBytes honours it) and third (ciphertext, non-empty since the
serialized payload is non-empty) components non-empty. -/
theorem c10_frame_shape (P : Type) (M : CryptoModel P) (p : P) (a sec : String) (n : Nat)
    (tag : List Nat) (s : String)
    (ha : a ≠ "") (hn : n ≠ 0) (hsec : sec ≠ "")
    (hivlen : (M.randomBytes n).length = n)
    (hivlt : ∀ b ∈ M.randomBytes n, b < 256)
    (hctne : M.encrypt a sec (M.randomBytes n) (M.stringify p) ≠ [])
    (hctlt : ∀ b ∈ M.encrypt a sec (M.randomBytes n) (M.stringify p), b < 256)
    (htag : M.getAuthTag a sec (M.randomBytes n) (M.stringify p) = some tag)
    (htaglt : ∀ b ∈ tag, b < 256)
    (henc : encryptData M (.obj p) (some ⟨some a, some n, some sec⟩) = .ok s) :
    (b64DecodeStr s).count 46 = 2 ∧
    (splitByte (b64DecodeStr s)).length = 3 ∧
    (splitByte (b64DecodeStr s)).getD 0 [] ≠ [] ∧
    (splitByte (b64DecodeStr s)).getD 2 [] ≠ [] := by
  have hs := encryptData_ok_eq P M p a sec n tag s ha hn hsec htag henc
  subst hs
  have hivne : M.randomBytes n ≠ [] := by
    intro hnil
    rw [hnil] at hivlen
    exact hn hivlen.symm
  rw [b64DecodeStr_compile _ _ _ hivlt htaglt hctlt]
  have c1 : (hexCodes (M.randomBytes n)).count 46 = 0 :=
    List.count_eq_zero.mpr (fun hmem => hexCodes_ne_dot _ 46 hmem rfl)
  have c2 : (hexCodes tag).count 46 = 0 :=
    List.count_eq_zero.mpr (fun hmem => hexCodes_ne_dot _ 46 hmem rfl)
  have c3 : (hexCodes (M.encrypt a sec (M.randomBytes n) (M.stringify p))).count 46 = 0 :=
    List.count_eq_zero.mpr (fun hmem => hexCodes_ne_dot _ 46 hmem rfl)
  refine ⟨?_, ?_, ?_, ?_⟩
  · rw [frameBytes_assoc]
    simp [List.count_append, List.count_cons_self, c1, c2, c3]
  · rw [splitByte_frameBytes]
    rfl
  · rw [splitByte_frameBytes]
    exact hexCodes_ne_nil hivne
  · rw [splitByte_frameBytes]
    exact hexCodes_ne_nil hctne

theorem c10_frame_shape_witness :
    (b64DecodeStr (compileEncryptString (M0.randomBytes 2) [1]
        (M0.encrypt "aes-256-gcm" "key" (M0.randomBytes 2) (M0.stringify 1)))).count 46 = 2 ∧
    (splitByte (b64DecodeStr (compileEncryptString (M0.randomBytes 2) [1]
        (M0.encrypt "aes-256-gcm" "key" (M0.randomBytes 2) (M0.stringify 1))))).length = 3 ∧
    (splitByte (b64DecodeStr (compileEncryptString (M0.randomBytes 2) [1]
        (M0.encrypt "aes-256-gcm" "key" (M0.randomBytes 2)
          (M0.stringify 1))))).getD 0 [] ≠ [] ∧
    (splitByte (b64DecodeStr (compileEncryptString (M0.randomBytes 2) [1]
        (M0.encrypt "aes-256-gcm" "key" (M0.randomBytes 2)
          (M0.stringify 1))))).getD 2 [] ≠ [] :=
  c10_frame_shape Nat M0 1 "aes-256-gcm" "key" 2 [1]
    (compileEncryptString (M0.randomBytes 2) [1]
      (M0.encrypt "aes-256-gcm" "key" (M0.randomBytes 2) (M0.stringify 1)))
    (by decide) (by decide) (by decide) (by decide) (by decide) (by decide) (by decide)
    rfl (by decide) (by decide)

end SessionEnc
